import Mathlib

/-!
Verification of the frame-processing core of the GIF-Maker program
(`src/main.py`).  The Python functions are shallowly embedded as pure Lean
functions over lists; machine integers are `Nat`/`Int`, Python `//` and `%`
on non-negative integers are `Nat` division and remainder, and the
IEEE-754 double-precision arithmetic used by a few pixel computations is
modelled exactly by dyadic rounding (`flPair` below).
-/

namespace GifMaker

/-- An 8-bit RGB pixel.  Channel values are `Nat`s; a well-formed pixel has
every channel `< 256`. -/
structure Pix where
  r : Nat
  g : Nat
  b : Nat
deriving DecidableEq, Repr

/-- A decoded RGB frame: a list of rows of pixels (row-major, as in the
numpy arrays produced by `cv2` / consumed by `PIL.Image.fromarray`). -/
abbrev Frame := List (List Pix)

/-! ## VideoProcessor.extract_frames (src/main.py lines 29–53)

The container is modelled as the list of frames that decode successfully,
in order; `cap.set(CAP_PROP_POS_FRAMES, start_frame)` is `List.drop`, a
failing `cap.read()` (container exhausted) is the end of the list, and the
`while frame_count < (end_frame - start_frame)` loop with the
`frame_count % skip_frames == 0` retention test is `extractLoop`. -/

/-- One iteration of the decode loop of `VideoProcessor.extract_frames`:
`budget` is the remaining value of `end_frame - start_frame - frame_count`,
`count` is `frame_count`.  A frame is retained iff `count % skip = 0`;
the loop stops when the budget is exhausted or the stream ends
(`cap.read()` returns `ret = False`). -/
def extractLoop {α : Type} (stream : List α) (budget : Nat) (skip : Nat)
    (count : Nat) : List α :=
  match budget, stream with
  | 0, _ => []
  | _ + 1, [] => []
  | b + 1, f :: rest =>
    if count % skip = 0 then f :: extractLoop rest b skip (count + 1)
    else extractLoop rest b skip (count + 1)

/-- Embedding of `VideoProcessor.extract_frames(video_path, start_frame, end_frame,
skip_frames)`, with the container abstracted to the list of its decodable
frames.  `end_frame` is an `Int` because the Python loop bound
`end_frame - start_frame` may be non-positive. -/
def extract_frames {α : Type} (container : List α) (start_frame : Nat)
    (end_frame : Int) (skip_frames : Nat) : List α :=
  extractLoop (container.drop start_frame)
    ((end_frame - start_frame).toNat) skip_frames 0

/-! ## IEEE-754 binary64 arithmetic, exactly

A few pixel computations in `src/main.py` go through Python floats:
`gray * 0.9` in the sepia filter and `x1 * (w / canvas_w)` in the crop
remap.  Both have the shape `int(x * (a / b))` with non-negative integers
`x, a, b`: one correctly-rounded division (or a rounded decimal literal
such as `0.9 = nearest double to 9/10`), one correctly-rounded
multiplication, and a truncation.  Doubles are modelled as dyadic pairs
`(m, g)` of value `m·2^g`; rounding a positive rational to 53 significant
bits with ties-to-even is exactly binary64 round-to-nearest for all
quantities that arise here (they are far from the overflow and subnormal
ranges). -/

/-- Fuelled base-2 logarithm: `log2fuel fuel n = ⌊log₂ n⌋` whenever `1 ≤ n ≤ fuel` (structural fuel
recursion so that closed terms reduce in the kernel). -/
def log2fuel : Nat → Nat → Nat
  | 0, _ => 0
  | fuel + 1, n => if n < 2 then 0 else log2fuel fuel (n / 2) + 1

/-- Floor base-2 logarithm `⌊log₂ n⌋` for `n ≥ 1`. -/
def log2floor (n : Nat) : Nat := log2fuel n n

/-- Fuelled ceiling base-2 logarithm: `clog2fuel fuel c` is the smallest `k` with `c ≤ 2^k`, whenever
`1 ≤ c ≤ fuel`. -/
def clog2fuel : Nat → Nat → Nat
  | 0, _ => 0
  | fuel + 1, c => if c ≤ 1 then 0 else clog2fuel fuel ((c + 1) / 2) + 1

/-- Smallest `k` with `c ≤ 2^k`, for `c ≥ 1`. -/
def clog2ceil (c : Nat) : Nat := clog2fuel c c

/-- The exponent `⌊log₂ (a/b)⌋` for positive naturals `a`, `b`: the binary exponent of
the double nearest to `a/b`. -/
def floorLog2Ratio (a b : Nat) : Int :=
  if b ≤ a then (log2floor (a / b) : Int)
  else -(clog2ceil ((b + a - 1) / a) : Int)

/-- Round the rational `n/d` to the nearest integer, ties to even. -/
def rneNat (n d : Nat) : Nat :=
  let q := n / d
  let r := n % d
  if d < 2 * r then q + 1
  else if 2 * r < d then q
  else if q % 2 = 0 then q else q + 1

/-- The 53-bit significand of the binary64 value nearest to `a/b`
(grid `2^(e-52)` where `e = ⌊log₂ (a/b)⌋`). -/
def mant53 (a b : Nat) : Nat :=
  let g : Int := floorLog2Ratio a b - 52
  if g ≤ 0 then rneNat (a * 2 ^ (-g).toNat) b
  else rneNat a (b * 2 ^ g.toNat)

/-- The binary64 value nearest to the non-negative rational `a/b`, as a
dyadic pair `(m, g)` of value `m·2^g`; zero is `(0, -132)`. -/
def flPair (a b : Nat) : Nat × Int :=
  if a = 0 then (0, -132) else (mant53 a b, floorLog2Ratio a b - 52)

/-- Python `x * s` where `x` is a non-negative int (exact in binary64) and
`s` a non-negative double `(m, g)`: the exact product `x·m·2^g` rounded
back to binary64. -/
def fmulInt (x : Nat) (p : Nat × Int) : Nat × Int :=
  if 0 ≤ p.2 then flPair (x * p.1 * 2 ^ p.2.toNat) 1
  else flPair (x * p.1) (2 ^ (-p.2).toNat)

/-- Python `int(·)` on a non-negative double: truncation = floor. -/
def truncDyadic (p : Nat × Int) : Nat :=
  if 0 ≤ p.2 then p.1 * 2 ^ p.2.toNat else p.1 / 2 ^ (-p.2).toNat

/-- Python `int(x * (a / b))` in binary64: `a / b` rounds once (a division
or a decimal literal), the product rounds once, `int` truncates.  This is
the exact semantics of `int(gray * 0.9)` (with `a/b = 9/10`) and of
`int(x1 * scale_x)` (with `scale_x = w / canvas_w`). -/
def pyScaleInt (x a b : Nat) : Nat := truncDyadic (fmulInt x (flPair a b))

/-! ## VideoProcessor.apply_filters (src/main.py lines 55–102)

Frames move through PIL; each stage builds a new image.  Pixel semantics
of the PIL operations used, modelled exactly:
rotation multiples of 90° with `expand=True` dispatch to `transpose`
(`Image.rotate` fast paths), `ImageEnhance.X(img).enhance(f)` is
`Image.blend(degenerate, img, f)` with per-channel
`clip(in1 + f·(in2 − in1))` (exact at the identity factor `1.0`, the only
factor any claim evaluates numerically, so the blend factor is carried as
an exact rational), and `convert('L')` is the ITU-R 601-2 fixed-point
luminance `(19595·R + 38470·G + 7471·B + 2^15) >> 16`. -/

/-- PIL `convert('L')` luminance of one RGB pixel. -/
def lum (p : Pix) : Nat :=
  (p.r * 19595 + p.g * 38470 + p.b * 7471 + 32768) / 65536

/-- PIL `img.transpose(Image.FLIP_LEFT_RIGHT)`. -/
def flipHFrame (f : Frame) : Frame := f.map List.reverse

/-- PIL `img.transpose(Image.FLIP_TOP_BOTTOM)`. -/
def flipVFrame (f : Frame) : Frame := f.reverse

/-- Rotation 90° clockwise (PIL `ROTATE_270`, reached by `rotate(-90)`). -/
def rot90cw (f : Frame) : Frame := f.transpose.map List.reverse

/-- Rotation 90° counterclockwise (PIL `ROTATE_90`, reached by `rotate(-270)`). -/
def rot90ccw (f : Frame) : Frame := f.transpose.reverse

/-- Rotation 180° (PIL `ROTATE_180`, reached by `rotate(-180)`). -/
def rot180 (f : Frame) : Frame := (f.map List.reverse).reverse

/-- PIL `img.rotate(-rotation, expand=True)` for the rotation values the UI
offers (combobox values 0, 90, 180, 270); `rotate(0)` returns a copy. -/
def rotateStage (rotation : Nat) (f : Frame) : Frame :=
  if rotation = 90 then rot90cw f
  else if rotation = 180 then rot180 f
  else if rotation = 270 then rot90ccw f
  else f

/-- One channel of `Image.blend(degenerate, image, factor)` as computed by
PIL's C `ImagingBlend`: `in1 + factor·(in2 − in1)`, clipped to `[0, 255]`,
stored truncated. -/
def blendChan (base v : Nat) (factor : ℚ) : Nat :=
  let t : ℚ := (base : ℚ) + factor * ((v : ℚ) - (base : ℚ))
  if t ≤ 0 then 0 else if 255 ≤ t then 255 else (⌊t⌋).toNat

def blendPix (base v : Pix) (factor : ℚ) : Pix :=
  ⟨blendChan base.r v.r factor, blendChan base.g v.g factor,
    blendChan base.b v.b factor⟩

/-- A per-pixel map over a frame. -/
def mapPix (pf : Pix → Pix) (f : Frame) : Frame :=
  f.map (fun row => row.map pf)

/-- PIL `ImageEnhance.Brightness(img).enhance(factor)`: blend against the
black degenerate image. -/
def brightnessStage (factor : ℚ) (f : Frame) : Frame :=
  mapPix (fun p => blendPix ⟨0, 0, 0⟩ p factor) f

/-- The rounded mean luminance `int(ImageStat.Stat(image.convert('L')).mean[0] + 0.5)`: the rounded
mean luminance used as the gray reference of `ImageEnhance.Contrast`. -/
def frameMean (f : Frame) : Nat :=
  let pixels := f.flatten
  if pixels.length = 0 then 0
  else (⌊(((pixels.map lum).sum : ℚ) / (pixels.length : ℚ)) + 1 / 2⌋).toNat

/-- PIL `ImageEnhance.Contrast(img).enhance(factor)`: blend against the solid
mean-luminance image. -/
def contrastStage (factor : ℚ) (f : Frame) : Frame :=
  let m := frameMean f
  mapPix (fun p => blendPix ⟨m, m, m⟩ p factor) f

/-- PIL `ImageEnhance.Color(img).enhance(factor)`: blend against the
grayscale degenerate image. -/
def saturationStage (factor : ℚ) (f : Frame) : Frame :=
  mapPix (fun p => blendPix ⟨lum p, lum p, lum p⟩ p factor) f

/-- PIL `img.convert('L').convert('RGB')`. -/
def grayStage (f : Frame) : Frame :=
  mapPix (fun p => ⟨lum p, lum p, lum p⟩) f

/-- The sepia recolor of one luminance value:
`(int(gray * 0.9), int(gray * 0.7), int(gray * 0.4))` in Python doubles. -/
def sepiaPix (gray : Nat) : Pix :=
  ⟨pyScaleInt gray 9 10, pyScaleInt gray 7 10, pyScaleInt gray 4 10⟩

/-- The sepia stage: `img.convert('L')`, then a fresh image whose pixel at
`(x, y)` is `sepiaPix` of the gray value there. -/
def sepiaStage (f : Frame) : Frame :=
  mapPix (fun p => sepiaPix (lum p)) f

/-- Embedding of `VideoProcessor.apply_filters(frame, brightness, contrast, saturation,
grayscale, sepia, rotation, flip_h, flip_v)`: the guarded stage chain of
lines 55–102, in source order. -/
def apply_filters (frame : Frame) (brightness contrast saturation : ℚ)
    (grayscale sepia : Bool) (rotation : Nat) (flip_h flip_v : Bool) :
    Frame :=
  let img := frame
  let img := if rotation ≠ 0 then rotateStage rotation img else img
  let img := if flip_h then flipHFrame img else img
  let img := if flip_v then flipVFrame img else img
  let img := if brightness ≠ 1 then brightnessStage brightness img else img
  let img := if contrast ≠ 1 then contrastStage contrast img else img
  let img := if saturation ≠ 1 then saturationStage saturation img else img
  let img := if grayscale then grayStage img else img
  let img := if sepia then sepiaStage img else img
  img

/-- The same stage chain with every scale stage and the rotation stage run
unconditionally (no skip-if-identity fast path); the boolean-flag stages
keep their flags, which are their parameters. -/
def applyFiltersNoSkip (frame : Frame) (brightness contrast saturation : ℚ)
    (grayscale sepia : Bool) (rotation : Nat) (flip_h flip_v : Bool) :
    Frame :=
  let img := rotateStage rotation frame
  let img := if flip_h then flipHFrame img else img
  let img := if flip_v then flipVFrame img else img
  let img := brightnessStage brightness img
  let img := contrastStage contrast img
  let img := saturationStage saturation img
  let img := if grayscale then grayStage img else img
  let img := if sepia then sepiaStage img else img
  img

/-- All channel values of a frame are 8-bit (`≤ 255`), as holds for every
buffer decoded from a video. -/
def ValidFrame (f : Frame) : Prop :=
  ∀ row ∈ f, ∀ p ∈ row, p.r ≤ 255 ∧ p.g ≤ 255 ∧ p.b ≤ 255

instance (f : Frame) : Decidable (ValidFrame f) := by
  unfold ValidFrame
  infer_instance

/-- Pixel at row `i`, column `j`. -/
def getPix (f : Frame) (i j : Nat) : Option Pix :=
  (f.get? i).bind (fun row => row.get? j)

/-! ## Buffer allocation model for `apply_filters`

Python-level effects of `apply_filters`: the input numpy buffer is read
once (`Image.fromarray` copies it into a fresh PIL image), every PIL
operation used (`rotate`, `transpose`, `ImageEnhance…enhance`, `convert`,
`Image.new`) builds a new image — the only pixel stores in the function,
`sepia_pixels[x, y] = …`, write into the image created by `Image.new` two
lines above — and `np.array(img)` at the end copies into a fresh numpy
buffer.  The heap is the list of allocated buffers, a reference is an
index, allocation appends. -/

def readBuf (h : List Frame) (r : Nat) : Frame := (h.get? r).getD []

def allocBuf (h : List Frame) (f : Frame) : List Frame × Nat :=
  (h ++ [f], h.length)

/-- Read the current image, apply a transform, store into a fresh
buffer. -/
def stepAlways (st : Frame → Frame) (p : List Frame × Nat) :
    List Frame × Nat :=
  allocBuf p.1 (st (readBuf p.1 p.2))

/-- A guarded stage of `apply_filters`: run only if its condition holds,
otherwise the current reference is passed on unchanged. -/
def stepIf (cond : Prop) [Decidable cond] (st : Frame → Frame)
    (p : List Frame × Nat) : List Frame × Nat :=
  if cond then stepAlways st p else p

/-- Buffer-level `apply_filters`: `Image.fromarray`, the guarded
stage chain of lines 55–102 in source order, and the final
`np.array(img)`. -/
def applyFiltersAlloc (h : List Frame) (inRef : Nat)
    (brightness contrast saturation : ℚ) (grayscale sepia : Bool)
    (rotation : Nat) (flip_h flip_v : Bool) : List Frame × Nat :=
  stepAlways id <|
  stepIf (sepia = true) sepiaStage <|
  stepIf (grayscale = true) grayStage <|
  stepIf (saturation ≠ 1) (saturationStage saturation) <|
  stepIf (contrast ≠ 1) (contrastStage contrast) <|
  stepIf (brightness ≠ 1) (brightnessStage brightness) <|
  stepIf (flip_v = true) flipVFrame <|
  stepIf (flip_h = true) flipHFrame <|
  stepIf (rotation ≠ 0) (rotateStage rotation) <|
  stepAlways id (h, inRef)

/-- Invariant of the buffer-level pipeline: the heap only grows by
appending (`h0` stays a prefix), the current reference is in bounds, and
it holds the value computed so far. -/
def AllocInv (h0 : List Frame) (p : List Frame × Nat) (v : Frame) : Prop :=
  (∃ t, p.1 = h0 ++ t) ∧ p.2 < p.1.length ∧ readBuf p.1 p.2 = v

/-! ## The export worker (src/main.py lines 987–1124)

`GIFMakerV2.export_gif` validates the numeric settings and starts
`_export_worker`; the worker extracts the selected range, optionally
reverses it, runs every frame through filters → crop → resize → palette
reduction, and saves all frames in one `PIL.Image.save` call with a single
scalar `duration` and `loop=0`.  Text overlays and the watermark
(best-effort drawing through external font/image resources) alter only
pixel content and are outside every claim; they are not modelled. -/

/-- Squared RGB distance, used to pick the nearest palette color. -/
def sqDist (p q : Pix) : Nat :=
  ((p.r : Int) - q.r).natAbs ^ 2 + ((p.g : Int) - q.g).natAbs ^ 2
    + ((p.b : Int) - q.b).natAbs ^ 2

/-- Nearest color of a palette (first minimizer); the input pixel itself
if the palette is empty. -/
def nearestIn (pal : List Pix) (p : Pix) : Pix :=
  match pal with
  | [] => p
  | q :: rest =>
    rest.foldl (fun best cand =>
      if sqDist cand p < sqDist best p then cand else best) q

/-- Modelled: the adaptive palette of
`img.convert('P', palette=Image.ADAPTIVE, colors=colors)` — at most
`colors` colors drawn from the frame.  PIL's median-cut choice of palette
entries is abstracted to the first `colors` distinct colors; what the
claims use — the palette has at most `colors` entries and every output
pixel is a palette entry — is exact. -/
def adaptivePalette (f : Frame) (colors : Nat) : List Pix :=
  f.flatten.dedup.take colors

/-- PIL `img.convert('P', palette=Image.ADAPTIVE, colors=colors)` followed by
`convert('RGB')`: every pixel becomes the nearest entry of the adaptive
palette, re-expanded to RGB. -/
def quantizeReduce (f : Frame) (colors : Nat) : Frame :=
  mapPix (nearestIn (adaptivePalette f colors)) f

/-- Lines 1077–1080: `if colors < 256: img = img.convert('P', …)
.convert('RGB')` — color reduction is skipped entirely at 256. -/
def quantizeStep (colors : Nat) (f : Frame) : Frame :=
  if colors < 256 then quantizeReduce f colors else f

/-- Lines 1028–1036: the crop box applied for crop selection
`(x1, y1, x2, y2)`, a source frame of width `w`, height `h`, and a preview
canvas of width `cw`, height `ch`
(`scale_x = w / canvas_w`, `scale_y = h / canvas_h`,
`crop_box = (int(x1*scale_x), int(y1*scale_y), int(x2*scale_x),
int(y2*scale_y))` in Python doubles; the worker instantiates
`canvas_w, canvas_h = 700, 400`). -/
def crop_box (x1 y1 x2 y2 w h cw ch : Nat) : Nat × Nat × Nat × Nat :=
  (pyScaleInt x1 w cw, pyScaleInt y1 h ch,
    pyScaleInt x2 w cw, pyScaleInt y2 h ch)

/-- PIL `img.crop((l, t, r, b))` for an in-bounds box: rows `[t, b)`, columns
`[l, r)`. -/
def cropFrame (box : Nat × Nat × Nat × Nat) (f : Frame) : Frame :=
  ((f.drop box.2.1).take (box.2.2.2 - box.2.1)).map
    (fun row => (row.drop box.1).take (box.2.2.1 - box.1))

def frameW (f : Frame) : Nat := (f.headD []).length

def frameH (f : Frame) : Nat := f.length

/-- PIL `img.resize((int(w*scale), int(h*scale)), Image.LANCZOS)`: the output
dimensions are exact; the LANCZOS resampling kernel is abstracted to
nearest-neighbour sampling (no claim depends on resampled pixel values).
The binary64 rounding of `w * scale` is not modelled here (`scale` is
carried as the exact rational value of the double). -/
def resizeStage (scale : ℚ) (f : Frame) : Frame :=
  let w := frameW f
  let h := frameH f
  let nw := (⌊(w : ℚ) * scale⌋).toNat
  let nh := (⌊(h : ℚ) * scale⌋).toNat
  (List.range nh).map (fun i =>
    (List.range nw).map (fun j =>
      (((f.get? (i * h / nh)).getD []).get? (j * w / nw)).getD ⟨0, 0, 0⟩))

/-- The per-export settings read by `export_gif` / `_export_worker` (an
immutable snapshot of the live UI variables). -/
structure ExportSettings where
  fps : Int
  scale : ℚ
  colors : Int
  skip : Nat
  reverse : Bool
  startFrame : Nat
  endFrame : Int
  brightness : ℚ
  contrast : ℚ
  saturation : ℚ
  grayscale : Bool
  sepia : Bool
  rotation : Nat
  flipH : Bool
  flipV : Bool
  cropCoords : Option (Nat × Nat × Nat × Nat)

/-- One frame through the worker loop of lines 1010–1081: filters, then
crop (scale factors from the *original* frame's shape, canvas 700×400),
then resize, then palette reduction. -/
def processFrame (s : ExportSettings) (frame : Frame) : Frame :=
  let processed := apply_filters frame s.brightness s.contrast
    s.saturation s.grayscale s.sepia s.rotation s.flipH s.flipV
  let img := match s.cropCoords with
    | none => processed
    | some (x1, y1, x2, y2) =>
      cropFrame (crop_box x1 y1 x2 y2 (frameW frame) (frameH frame)
        700 400) processed
  let img := resizeStage s.scale img
  quantizeStep s.colors.toNat img

inductive ExportError where
  | invalidSettings
  | emptySequence
deriving DecidableEq, Repr

/-- The multi-frame file written by `PIL.Image.save(save_all=True, …)`:
frame sequence, per-frame durations in ms, loop count (0 = forever). -/
structure AnimFile where
  frames : List Frame
  frameDurations : List Int
  loop : Nat
deriving DecidableEq, Repr

/-- Lines 1094–1124: `duration = 1000 // fps` computed once;
`output_frames[0].save(..., append_images=output_frames[1:],
duration=duration, loop=0)`.  PIL applies a scalar `duration` uniformly to
every frame.  On an empty list, `output_frames[0]` raises `IndexError`
before `save` ever runs, so no file (not even an empty one) is created;
that failure is the error result. -/
def saveFrames (output_frames : List Frame) (fps : Int) :
    Except ExportError AnimFile :=
  let duration : Int := 1000 / fps
  match output_frames with
  | [] => .error .emptySequence
  | f :: rest =>
    .ok ⟨f :: rest, List.replicate (f :: rest).length duration, 0⟩

/-- Lines 946–950: `if fps <= 0 or scale <= 0 or colors < 32 or
colors > 256`. -/
def invalid_settings (fps : Int) (scale : ℚ) (colors : Int) : Bool :=
  decide (fps ≤ 0) || decide (scale ≤ 0) || decide (colors < 32)
    || decide (256 < colors)

/-- Embedding of `GIFMakerV2._export_worker`: extract the selected range with the
configured stride, optionally reverse, process every frame, save. -/
def export_worker (container : List Frame) (s : ExportSettings) :
    Except ExportError AnimFile :=
  let frames := extract_frames container s.startFrame s.endFrame s.skip
  let frames := if s.reverse then frames.reverse else frames
  let output_frames := frames.map (processFrame s)
  saveFrames output_frames s.fps

/-- Embedding of `GIFMakerV2.export_gif`: numeric validation happens first, before the
worker thread (and hence any frame decoding) starts. -/
def export_gif (container : List Frame) (s : ExportSettings) :
    Except ExportError AnimFile :=
  if invalid_settings s.fps s.scale s.colors then .error .invalidSettings
  else export_worker container s

theorem extractLoop_eq_filterMap {α : Type} (b : Nat) (stream : List α)
    (skip c : Nat) :
    extractLoop stream b skip c
      = (List.range b).filterMap
          (fun i => if (c + i) % skip = 0 then stream.get? i else none) := by
  induction b generalizing stream c with
  | zero => simp [extractLoop]
  | succ b ih =>
    cases stream with
    | nil =>
      simp [extractLoop, List.filterMap_eq_nil_iff]
    | cons f rest =>
      rw [List.range_succ_eq_map, List.filterMap_cons, List.filterMap_map]
      have hcomp :
          ((fun i => if (c + i) % skip = 0 then (f :: rest).get? i else none)
              ∘ Nat.succ)
            = fun i => if ((c + 1) + i) % skip = 0 then rest.get? i
                else none := by
        funext i
        show (if (c + Nat.succ i) % skip = 0 then (f :: rest).get? (Nat.succ i)
            else none) = _
        rw [show c + Nat.succ i = (c + 1) + i by omega]
        rfl
      rw [hcomp, ← ih rest (c + 1)]
      rw [show extractLoop (f :: rest) (b + 1) skip c
          = if c % skip = 0 then f :: extractLoop rest b skip (c + 1)
            else extractLoop rest b skip (c + 1) from rfl]
      by_cases h : c % skip = 0
      · simp [h]
      · simp [h]

theorem filterMap_range_stable {β : Type} (f : Nat → Option β) (T m : Nat)
    (h : ∀ i, T ≤ i → f i = none) :
    (List.range (T + m)).filterMap f = (List.range T).filterMap f := by
  induction m with
  | zero => rfl
  | succ m ih =>
    rw [show T + (m + 1) = (T + m) + 1 by omega, List.range_succ,
      List.filterMap_append]
    have hnone : f (T + m) = none := h (T + m) (by omega)
    simp [hnone, ih]

theorem ceil_div_succ_of_mod_eq_zero {T k : Nat} (hk : 0 < k)
    (h : T % k = 0) :
    (T + 1 + k - 1) / k = (T + k - 1) / k + 1 ∧ ((T + k - 1) / k) * k = T := by
  have hdm := Nat.div_add_mod T k
  obtain ⟨q, hq⟩ : ∃ q, T = k * q := ⟨T / k, by omega⟩
  have hx : k * (q + 1) = k * q + k := by ring
  have h1 : T + k - 1 = k * q + (k - 1) := by omega
  have h2 : T + 1 + k - 1 = k * (q + 1) := by omega
  have h3 : (k * q + (k - 1)) / k = q + (k - 1) / k := Nat.mul_add_div hk _ _
  have h4 : k * (q + 1) / k = q + 1 := Nat.mul_div_cancel_left _ hk
  have h5 : (k - 1) / k = 0 := Nat.div_eq_of_lt (by omega)
  constructor
  · rw [h1, h2, h3, h4, h5]
  · rw [h1, h3, h5, Nat.add_zero, hq]
    exact Nat.mul_comm q k

theorem ceil_div_succ_of_mod_ne_zero {T k : Nat} (hk : 0 < k)
    (h : T % k ≠ 0) :
    (T + 1 + k - 1) / k = (T + k - 1) / k := by
  have hdm := Nat.div_add_mod T k
  obtain ⟨q, r, hq, hr1, hr2⟩ : ∃ q r, T = k * q + r ∧ 1 ≤ r ∧ r < k :=
    ⟨T / k, T % k, by omega, by omega, Nat.mod_lt _ hk⟩
  have hx : k * (q + 1) = k * q + k := by ring
  have h1 : T + k - 1 = k * (q + 1) + (r - 1) := by omega
  have h2 : T + 1 + k - 1 = k * (q + 1) + r := by omega
  have h3 : (k * (q + 1) + (r - 1)) / k = (q + 1) + (r - 1) / k :=
    Nat.mul_add_div hk _ _
  have h4 : (k * (q + 1) + r) / k = (q + 1) + r / k := Nat.mul_add_div hk _ _
  have h5 : r / k = 0 := Nat.div_eq_of_lt hr2
  have h6 : (r - 1) / k = 0 := Nat.div_eq_of_lt (by omega)
  rw [h1, h2, h3, h4, h5, h6]

theorem filterMap_singleton_eq {α β : Type} (g : α → Option β) (a : α) :
    List.filterMap g [a] = (g a).toList := by
  cases hg : g a <;> simp [List.filterMap_cons, hg]

theorem filterMap_range_mod {β : Type} {k : Nat} (hk : 0 < k)
    (f : Nat → Option β) (T : Nat) :
    (List.range T).filterMap (fun i => if i % k = 0 then f i else none)
      = (List.range ((T + k - 1) / k)).filterMap (fun j => f (j * k)) := by
  induction T with
  | zero =>
    rw [show (0 + k - 1) / k = 0 from Nat.div_eq_of_lt (by omega)]
    simp
  | succ T ih =>
    rw [List.range_succ, List.filterMap_append, ih]
    by_cases h : T % k = 0
    · obtain ⟨hceil, hmul⟩ := ceil_div_succ_of_mod_eq_zero hk h
      rw [hceil, List.range_succ, List.filterMap_append,
        filterMap_singleton_eq, filterMap_singleton_eq, if_pos h, hmul]
    · rw [ceil_div_succ_of_mod_ne_zero hk h, filterMap_singleton_eq,
        if_neg h]
      simp

theorem mul_lt_iff_lt_ceil {k : Nat} (hk : 0 < k) (T j : Nat) :
    j * k < T ↔ j < (T + k - 1) / k := by
  constructor
  · intro h
    by_contra hle
    push_neg at hle
    have h1 : (T + k - 1) / k * k ≤ j * k := Nat.mul_le_mul_right k hle
    have h3 : T + k - 1 < ((T + k - 1) / k + 1) * k :=
      (Nat.div_lt_iff_lt_mul hk).mp (Nat.lt_succ_self _)
    have h4 : ((T + k - 1) / k + 1) * k = (T + k - 1) / k * k + k := by
      rw [Nat.add_mul, Nat.one_mul]
    omega
  · intro h
    by_contra hle
    push_neg at hle
    have h1 : (T + k - 1) / k ≤ (j * k + k - 1) / k :=
      Nat.div_le_div_right (by omega)
    have h2 : (j * k + k - 1) / k = j := by
      have h3 : j * k + k - 1 = k * j + (k - 1) := by
        rw [Nat.mul_comm j k]
        omega
      rw [h3, Nat.mul_add_div hk, Nat.div_eq_of_lt (by omega)]
      omega
    omega

theorem filterMap_get?_of_isSome {α β : Type} (F : α → Option β)
    (l : List α) (h : ∀ a ∈ l, (F a).isSome) (j : Nat) :
    (l.filterMap F).get? j = (l.get? j).bind F := by
  induction l generalizing j with
  | nil => simp
  | cons a l ih =>
    obtain ⟨b, hb⟩ := Option.isSome_iff_exists.mp (h a (by simp))
    cases j with
    | zero => simp [List.filterMap_cons, hb]
    | succ j =>
      simp only [List.filterMap_cons, hb, List.get?_cons_succ]
      exact ih (fun a ha => h a (by simp [ha])) j

theorem filterMap_length_of_isSome {α β : Type} (F : α → Option β)
    (l : List α) (h : ∀ a ∈ l, (F a).isSome) :
    (l.filterMap F).length = l.length := by
  induction l with
  | nil => rfl
  | cons a l ih =>
    obtain ⟨b, hb⟩ := Option.isSome_iff_exists.mp (h a (by simp))
    simp only [List.filterMap_cons, hb, List.length_cons]
    rw [ih (fun a ha => h a (by simp [ha]))]

theorem get?_isSome_of_lt {α : Type} (l : List α) (i : Nat)
    (h : i < l.length) : (l.get? i).isSome := by
  rw [Option.isSome_iff_ne_none]
  intro hnone
  rw [List.get?_eq_none] at hnone
  omega

theorem extract_frames_eq_filterMap {α : Type} (container : List α)
    (E : Int) (k : Nat) :
    extract_frames container 0 E k
      = (List.range E.toNat).filterMap
          (fun i => if i % k = 0 then container.get? i else none) := by
  rw [extract_frames, List.drop_zero, extractLoop_eq_filterMap]
  have hsub : E - ((0 : Nat) : Int) = E := by simp
  rw [hsub]
  congr 1
  funext i
  rw [Nat.zero_add]

theorem extract_frames_strided {α : Type} (container : List α)
    (E : Int) (k : Nat) (hk : 0 < k)
    (hE : (container.length : Int) ≤ E) :
    extract_frames container 0 E k
      = (List.range ((container.length + k - 1) / k)).filterMap
          (fun j => container.get? (j * k)) := by
  rw [extract_frames_eq_filterMap]
  have hTE : container.length ≤ E.toNat := by omega
  obtain ⟨m, hm⟩ := Nat.exists_eq_add_of_le hTE
  rw [hm, filterMap_range_stable _ container.length m
    (fun i hi => by
      rw [List.get?_eq_none.mpr hi]
      exact ite_self none)]
  exact filterMap_range_mod hk _ _

theorem extract_frames_get? {α : Type} (container : List α)
    (E : Int) (k : Nat) (hk : 0 < k)
    (hE : (container.length : Int) ≤ E) (j : Nat) :
    (extract_frames container 0 E k).get? j = container.get? (j * k) := by
  rw [extract_frames_strided container E k hk hE]
  have hsome : ∀ a ∈ List.range ((container.length + k - 1) / k),
      (container.get? (a * k)).isSome := by
    intro a ha
    rw [List.mem_range] at ha
    exact get?_isSome_of_lt _ _ ((mul_lt_iff_lt_ceil hk _ a).mpr ha)
  rw [filterMap_get?_of_isSome _ _ hsome j]
  by_cases hj : j < (container.length + k - 1) / k
  · rw [List.get?_range hj]
    rfl
  · rw [List.get?_eq_none.mpr (by simpa using hj)]
    have hjm : ¬ j * k < container.length := by
      rw [mul_lt_iff_lt_ceil hk]
      exact hj
    rw [List.get?_eq_none.mpr (by omega)]
    rfl

theorem extract_frames_length {α : Type} (container : List α)
    (E : Int) (k : Nat) (hk : 0 < k)
    (hE : (container.length : Int) ≤ E) :
    (extract_frames container 0 E k).length
      = (container.length + k - 1) / k := by
  rw [extract_frames_strided container E k hk hE]
  rw [filterMap_length_of_isSome _ _ (fun a ha => by
    rw [List.mem_range] at ha
    exact get?_isSome_of_lt _ _ ((mul_lt_iff_lt_ceil hk _ a).mpr ha))]
  exact List.length_range _

/-- Claim C1: for a container that yields `totalFrames` decodable frames,
`extract_frames(path, 0, E, k)` with stride `k ≥ 1` and `E ≥ totalFrames`
returns exactly `⌈totalFrames/k⌉` frames (`= (totalFrames + k - 1) / k`),
retaining precisely the frames at container positions `0, k, 2k, …`
(position `j` of the result is container frame `j·k`); a container ending
before `end_frame` yields the same short retained sequence as
`E = totalFrames` (early `ret = False` just ends the loop, never an
error), and stride `1` returns the whole container. -/
theorem extract_frames_full_range_spec (container : List Frame) (k : Nat)
    (hk : 1 ≤ k) (E : Int) (hE : (container.length : Int) ≤ E) :
    (extract_frames container 0 E k).length
        = (container.length + k - 1) / k
    ∧ (∀ j : Nat, (extract_frames container 0 E k).get? j
        = container.get? (j * k))
    ∧ extract_frames container 0 E k
        = extract_frames container 0 (container.length : Int) k
    ∧ extract_frames container 0 (container.length : Int) 1 = container := by
  refine ⟨extract_frames_length container E k hk hE, fun j =>
    extract_frames_get? container E k hk hE j, ?_, ?_⟩
  · rw [extract_frames_strided container E k hk hE,
      extract_frames_strided container _ k hk (le_refl _)]
  · apply List.ext
    intro j
    rw [extract_frames_get? container _ 1 (by omega) (le_refl _) j,
      Nat.mul_one]

/-- Closed witness for `extract_frames_full_range_spec` at a concrete
5-frame container, stride 2 and `end_frame = 7`. -/
theorem extract_frames_full_range_spec_witness :
    (1 : Nat) ≤ 2
    ∧ ((([[[⟨0,0,0⟩]], [[⟨1,1,1⟩]], [[⟨2,2,2⟩]], [[⟨3,3,3⟩]],
        [[⟨4,4,4⟩]]] : List Frame).length : Int) ≤ 7)
    ∧ ((extract_frames ([[[⟨0,0,0⟩]], [[⟨1,1,1⟩]], [[⟨2,2,2⟩]],
          [[⟨3,3,3⟩]], [[⟨4,4,4⟩]]] : List Frame) 0 7 2).length
        = (([[[⟨0,0,0⟩]], [[⟨1,1,1⟩]], [[⟨2,2,2⟩]], [[⟨3,3,3⟩]],
          [[⟨4,4,4⟩]]] : List Frame).length + 2 - 1) / 2
      ∧ (∀ j : Nat, (extract_frames ([[[⟨0,0,0⟩]], [[⟨1,1,1⟩]],
            [[⟨2,2,2⟩]], [[⟨3,3,3⟩]], [[⟨4,4,4⟩]]] : List Frame) 0 7 2).get? j
          = ([[[⟨0,0,0⟩]], [[⟨1,1,1⟩]], [[⟨2,2,2⟩]], [[⟨3,3,3⟩]],
            [[⟨4,4,4⟩]]] : List Frame).get? (j * 2))
      ∧ extract_frames ([[[⟨0,0,0⟩]], [[⟨1,1,1⟩]], [[⟨2,2,2⟩]],
            [[⟨3,3,3⟩]], [[⟨4,4,4⟩]]] : List Frame) 0 7 2
          = extract_frames ([[[⟨0,0,0⟩]], [[⟨1,1,1⟩]], [[⟨2,2,2⟩]],
            [[⟨3,3,3⟩]], [[⟨4,4,4⟩]]] : List Frame) 0
            ((([[[⟨0,0,0⟩]], [[⟨1,1,1⟩]], [[⟨2,2,2⟩]], [[⟨3,3,3⟩]],
              [[⟨4,4,4⟩]]] : List Frame).length : Int)) 2
      ∧ extract_frames ([[[⟨0,0,0⟩]], [[⟨1,1,1⟩]], [[⟨2,2,2⟩]],
            [[⟨3,3,3⟩]], [[⟨4,4,4⟩]]] : List Frame) 0
            ((([[[⟨0,0,0⟩]], [[⟨1,1,1⟩]], [[⟨2,2,2⟩]], [[⟨3,3,3⟩]],
              [[⟨4,4,4⟩]]] : List Frame).length : Int)) 1
          = [[[⟨0,0,0⟩]], [[⟨1,1,1⟩]], [[⟨2,2,2⟩]], [[⟨3,3,3⟩]],
            [[⟨4,4,4⟩]]]) :=
  ⟨by decide, by decide,
    extract_frames_full_range_spec
      [[[⟨0,0,0⟩]], [[⟨1,1,1⟩]], [[⟨2,2,2⟩]], [[⟨3,3,3⟩]], [[⟨4,4,4⟩]]]
      2 (by decide) 7 (by decide)⟩

/-- Claim C10: `extract_frames` with a degenerate range
(`start_frame ≥ end_frame`) returns the empty sequence for every container
and stride `k ≥ 1`: the loop bound `end_frame - start_frame` is
non-positive, so the decode loop never runs. -/
theorem extract_frames_degenerate_range (container : List Frame)
    (s : Nat) (e : Int) (k : Nat) (hk : 1 ≤ k) (hse : e ≤ (s : Int)) :
    extract_frames container s e k = [] := by
  rw [extract_frames, Int.toNat_of_nonpos (by omega)]
  cases List.drop s container <;> rfl

/-- Closed witness for `extract_frames_degenerate_range`:
`start_frame = 3 ≥ 1 = end_frame` on a 4-frame container. -/
theorem extract_frames_degenerate_range_witness :
    (1 : Nat) ≤ 2 ∧ ((1 : Int) ≤ ((3 : Nat) : Int))
    ∧ extract_frames ([[[⟨0,0,0⟩]], [[⟨1,1,1⟩]], [[⟨2,2,2⟩]],
        [[⟨3,3,3⟩]]] : List Frame) 3 1 2 = [] :=
  ⟨by decide, by decide,
    extract_frames_degenerate_range
      [[[⟨0,0,0⟩]], [[⟨1,1,1⟩]], [[⟨2,2,2⟩]], [[⟨3,3,3⟩]]]
      3 1 2 (by decide) (by decide)⟩

theorem list_map_id_on {α : Type} (g : α → α) (l : List α)
    (h : ∀ a ∈ l, g a = a) : l.map g = l := by
  induction l with
  | nil => rfl
  | cons a l ih =>
    simp only [List.map_cons]
    rw [h a (by simp), ih (fun b hb => h b (by simp [hb]))]

theorem mapPix_id (pf : Pix → Pix) (f : Frame)
    (h : ∀ row ∈ f, ∀ p ∈ row, pf p = p) : mapPix pf f = f := by
  unfold mapPix
  exact list_map_id_on _ f
    (fun row hr => list_map_id_on pf row (fun p hp => h row hr p hp))

theorem blendChan_one (base v : Nat) (hv : v ≤ 255) :
    blendChan base v 1 = v := by
  simp only [blendChan]
  have ht : (base : ℚ) + 1 * ((v : ℚ) - (base : ℚ)) = (v : ℚ) := by ring
  rw [ht]
  by_cases h0 : (v : ℚ) ≤ 0
  · have hv0 : v = 0 := by exact_mod_cast le_antisymm h0 (by positivity)
    simp [h0, hv0]
  · rw [if_neg h0]
    by_cases h255 : (255 : ℚ) ≤ (v : ℚ)
    · have : v = 255 := le_antisymm hv (by exact_mod_cast h255)
      rw [if_pos h255, this]
    · rw [if_neg h255, Int.floor_natCast, Int.toNat_natCast]

theorem blendPix_one (base p : Pix)
    (hp : p.r ≤ 255 ∧ p.g ≤ 255 ∧ p.b ≤ 255) :
    blendPix base p 1 = p := by
  cases p with
  | mk r g b =>
    simp only [blendPix]
    rw [blendChan_one _ _ hp.1, blendChan_one _ _ hp.2.1,
      blendChan_one _ _ hp.2.2]

theorem brightnessStage_one (f : Frame) (h : ValidFrame f) :
    brightnessStage 1 f = f :=
  mapPix_id _ f (fun row hr p hp => blendPix_one _ p (h row hr p hp))

theorem contrastStage_one (f : Frame) (h : ValidFrame f) :
    contrastStage 1 f = f :=
  mapPix_id _ f (fun row hr p hp => blendPix_one _ p (h row hr p hp))

theorem saturationStage_one (f : Frame) (h : ValidFrame f) :
    saturationStage 1 f = f :=
  mapPix_id _ f (fun row hr p hp => blendPix_one _ p (h row hr p hp))

theorem rotateStage_zero (f : Frame) : rotateStage 0 f = f := by
  simp [rotateStage]

/-- Claim C2: with every setting at its identity value (scales 1.0, flags
off, rotation 0), `apply_filters` returns the frame pixel-identical — and
so does the variant in which the scale and rotation stages run
unconditionally with their identity parameters instead of being skipped:
the skip-if-identity guards are a pure optimization, bit-identical to
running each stage at identity. -/
theorem apply_filters_identity_spec (frame : Frame) (h : ValidFrame frame) :
    apply_filters frame 1 1 1 false false 0 false false = frame
    ∧ applyFiltersNoSkip frame 1 1 1 false false 0 false false = frame := by
  constructor
  · simp [apply_filters]
  · simp [applyFiltersNoSkip, rotateStage_zero, brightnessStage_one frame h,
      contrastStage_one frame h, saturationStage_one frame h]

/-- Closed witness for `apply_filters_identity_spec` on a concrete
2×1 frame. -/
theorem apply_filters_identity_spec_witness :
    ValidFrame [[⟨10, 20, 30⟩, ⟨0, 255, 7⟩]]
    ∧ (apply_filters [[⟨10, 20, 30⟩, ⟨0, 255, 7⟩]] 1 1 1 false false 0
        false false = [[⟨10, 20, 30⟩, ⟨0, 255, 7⟩]]
      ∧ applyFiltersNoSkip [[⟨10, 20, 30⟩, ⟨0, 255, 7⟩]] 1 1 1 false false 0
        false false = [[⟨10, 20, 30⟩, ⟨0, 255, 7⟩]]) :=
  ⟨by decide, apply_filters_identity_spec [[⟨10, 20, 30⟩, ⟨0, 255, 7⟩]]
    (by decide)⟩

theorem getPix_mapPix (pf : Pix → Pix) (f : Frame) (i j : Nat) :
    getPix (mapPix pf f) i j = (getPix f i j).map pf := by
  unfold getPix mapPix
  rw [List.get?_map]
  cases hrow : f.get? i with
  | none => rfl
  | some row =>
    show (row.map pf).get? j = (row.get? j).map pf
    exact List.get?_map pf row j

/-- Claim C3, counterexample: the claim says the sepia output pixel is
`(⌊0.9·L⌋, ⌊0.7·L⌋, ⌊0.4·L⌋)` of the current luminance `L`.  At
`L = 90` the code computes `int(90 * 0.7)` in binary64, which is `62`
(the double product `90 * 0.7` falls just below `63.0`), while
`⌊0.7·90⌋ = 63`: the G channel of the sepia output of the all-gray frame
`(90,90,90)` is `62`, not `63`. -/
theorem sepia_floor_counterexample :
    apply_filters [[⟨90, 90, 90⟩]] 1 1 1 false true 0 false false
      = [[⟨81, 62, 36⟩]]
    ∧ lum ⟨90, 90, 90⟩ = 90
    ∧ (7 * 90) / 10 = 63
    ∧ (62 : Nat) ≠ 63 := by
  refine ⟨by decide, by decide, by decide, by decide⟩

/-- Claim C3, amended: `apply_filters` runs its stages in the fixed order
rotate, flip-h, flip-v, brightness, contrast, saturation, grayscale,
sepia (each guarded by its identity value); when sepia is set it is
applied last, to the frame produced by all previous stages (overriding any
grayscale output): each output pixel is recomputed from the luminance `L`
of the current frame as `(int(L*0.9), int(L*0.7), int(L*0.4))` in Python
doubles — which can fall one below the exact `(⌊0.9L⌋, ⌊0.7L⌋, ⌊0.4L⌋)`
whenever the exact product is integral. -/
theorem apply_filters_stage_order_spec (frame : Frame)
    (b c s : ℚ) (g sp : Bool) (rot : Nat) (fh fv : Bool) :
    (apply_filters frame b c s g true rot fh fv
      = sepiaStage (apply_filters frame b c s g false rot fh fv))
    ∧ (∀ i j p,
        getPix (apply_filters frame b c s g false rot fh fv) i j = some p →
        getPix (apply_filters frame b c s g true rot fh fv) i j
          = some (sepiaPix (lum p)))
    ∧ (apply_filters frame b c s g sp rot fh fv
      = (fun x => if sp then sepiaStage x else x)
        ((fun x => if g then grayStage x else x)
        ((fun x => if s ≠ 1 then saturationStage s x else x)
        ((fun x => if c ≠ 1 then contrastStage c x else x)
        ((fun x => if b ≠ 1 then brightnessStage b x else x)
        ((fun x => if fv then flipVFrame x else x)
        ((fun x => if fh then flipHFrame x else x)
        ((fun x => if rot ≠ 0 then rotateStage rot x else x)
          frame)))))))) := by
  refine ⟨rfl, fun i j p hp => ?_, rfl⟩
  have hstep : apply_filters frame b c s g true rot fh fv
      = sepiaStage (apply_filters frame b c s g false rot fh fv) := rfl
  rw [hstep]
  unfold sepiaStage
  rw [getPix_mapPix, hp]
  rfl

theorem foldl_choice_mem {α : Type} (f : α → α → α)
    (hsel : ∀ a b, f a b = a ∨ f a b = b) :
    ∀ (l : List α) (acc : α), l.foldl f acc = acc ∨ l.foldl f acc ∈ l := by
  intro l
  induction l with
  | nil => intro acc; exact Or.inl rfl
  | cons c l ih =>
    intro acc
    rw [List.foldl_cons]
    rcases ih (f acc c) with h | h
    · rcases hsel acc c with hs | hs
      · exact Or.inl (h.trans hs)
      · exact Or.inr (by rw [h, hs]; exact List.mem_cons_self c l)
    · exact Or.inr (List.mem_cons_of_mem c h)

theorem nearestIn_mem (pal : List Pix) (p : Pix) (hne : pal ≠ []) :
    nearestIn pal p ∈ pal := by
  cases pal with
  | nil => exact absurd rfl hne
  | cons q rest =>
    show rest.foldl (fun best cand =>
      if sqDist cand p < sqDist best p then cand else best) q ∈ q :: rest
    rcases foldl_choice_mem
      (fun best cand => if sqDist cand p < sqDist best p then cand else best)
      (fun a b => by
        by_cases h : sqDist b p < sqDist a p
        · exact Or.inr (if_pos h)
        · exact Or.inl (if_neg h))
      rest q with h | h
    · rw [h]; exact List.mem_cons_self q rest
    · exact List.mem_cons_of_mem q h

theorem flatten_mapPix (g : Pix → Pix) (f : Frame) :
    (mapPix g f).flatten = f.flatten.map g := by
  unfold mapPix
  induction f with
  | nil => rfl
  | cons row rest ih =>
    simp only [List.map_cons, List.flatten_cons, List.map_append, ih]

theorem dedup_length_le_of_subset (l pal : List Pix)
    (h : ∀ x ∈ l, x ∈ pal) : l.dedup.length ≤ pal.length := by
  have h1 : l.toFinset ⊆ pal.toFinset := by
    intro x hx
    rw [List.mem_toFinset] at hx ⊢
    exact h x hx
  have h2 : l.toFinset.card ≤ pal.toFinset.card := Finset.card_le_card h1
  rw [List.card_toFinset, List.card_toFinset] at h2
  exact h2.trans (List.Sublist.length_le (List.dedup_sublist pal))

theorem take_ne_nil_of_ne_nil {α : Type} (l : List α) (c : Nat)
    (hne : l ≠ []) (hc : 1 ≤ c) : l.take c ≠ [] := by
  cases l with
  | nil => exact absurd rfl hne
  | cons a l =>
    cases c with
    | zero => omega
    | succ c => simp [List.take_succ_cons]

/-- Claim C5: `quantizeStep` with `colors = 256` is a no-op (the `colors <
256` guard skips the conversion entirely), and for `32 ≤ colors < 256`
the quantized frame, re-expanded to RGB, has at most `colors` distinct
colors: every output pixel is an entry of the adaptive palette, which has
at most `colors` entries. -/
theorem quantize_spec (f : Frame) (c : Nat) (hc : 32 ≤ c)
    (hc2 : c < 256) :
    quantizeStep 256 f = f
    ∧ ((quantizeStep c f).flatten).dedup.length ≤ c := by
  constructor
  · simp [quantizeStep]
  · rw [quantizeStep, if_pos hc2]
    have hmem : ∀ x ∈ (quantizeReduce f c).flatten,
        x ∈ adaptivePalette f c := by
      intro x hx
      rw [quantizeReduce, flatten_mapPix] at hx
      obtain ⟨y, hy, rfl⟩ := List.mem_map.mp hx
      apply nearestIn_mem
      apply take_ne_nil_of_ne_nil _ _ _ (by omega)
      intro hdnil
      have : y ∈ f.flatten.dedup := List.mem_dedup.mpr hy
      rw [hdnil] at this
      exact (List.not_mem_nil y) this
    calc ((quantizeReduce f c).flatten).dedup.length
        ≤ (adaptivePalette f c).length :=
          dedup_length_le_of_subset _ _ hmem
      _ ≤ c := by
          rw [adaptivePalette, List.length_take]
          omega

/-- Closed witness for `quantize_spec` at `colors = 32` on a concrete
frame. -/
theorem quantize_spec_witness :
    (32 : Nat) ≤ 32 ∧ (32 : Nat) < 256
    ∧ (quantizeStep 256 [[⟨1, 2, 3⟩, ⟨4, 5, 6⟩]] = [[⟨1, 2, 3⟩, ⟨4, 5, 6⟩]]
      ∧ ((quantizeStep 32 [[⟨1, 2, 3⟩, ⟨4, 5, 6⟩]]).flatten).dedup.length
          ≤ 32) :=
  ⟨by decide, by decide,
    quantize_spec [[⟨1, 2, 3⟩, ⟨4, 5, 6⟩]] 32 (by decide) (by decide)⟩

theorem saveFrames_ne_invalid (l : List Frame) (fps : Int) :
    saveFrames l fps ≠ Except.error ExportError.invalidSettings := by
  cases l <;> simp [saveFrames]

theorem invalid_settings_iff (fps : Int) (scale : ℚ) (colors : Int) :
    invalid_settings fps scale colors = true
      ↔ (fps ≤ 0 ∨ scale ≤ 0 ∨ colors < 32 ∨ 256 < colors) := by
  simp only [invalid_settings, Bool.or_eq_true, decide_eq_true_eq]
  tauto

/-- Claim C4: an export is rejected with the invalid-settings error iff
`fps ≤ 0` or `scale ≤ 0` or `colors` lies outside `[32, 256]`; rejection
happens before any decoding (the result is then independent of the
container), and for all settings inside the bounds validation passes and
the job proceeds to the worker. -/
theorem export_validation_spec (container : List Frame)
    (s : ExportSettings) :
    (export_gif container s = Except.error ExportError.invalidSettings
      ↔ (s.fps ≤ 0 ∨ s.scale ≤ 0 ∨ s.colors < 32 ∨ 256 < s.colors))
    ∧ (invalid_settings s.fps s.scale s.colors = true →
        ∀ c2 : List Frame,
          export_gif c2 s = Except.error ExportError.invalidSettings)
    ∧ (invalid_settings s.fps s.scale s.colors = false →
        export_gif container s = export_worker container s) := by
  refine ⟨⟨?_, ?_⟩, ?_, ?_⟩
  · intro h
    by_cases hinv : invalid_settings s.fps s.scale s.colors = true
    · exact (invalid_settings_iff _ _ _).mp hinv
    · rw [export_gif, if_neg hinv] at h
      exact absurd h (saveFrames_ne_invalid _ _)
  · intro h
    have hinv := (invalid_settings_iff s.fps s.scale s.colors).mpr h
    rw [export_gif, if_pos hinv]
  · intro hinv c2
    rw [export_gif, if_pos hinv]
  · intro hfalse
    rw [export_gif, if_neg (by rw [hfalse]; exact Bool.false_ne_true)]

/-- Claim C6: for every `fps = F > 0`, the save step computes the per-frame
duration once as `1000 // F` (integer floor division, equal to the `Nat`
division `1000 / F`), and the scalar `duration` argument of `PIL…save`
gives every frame that same duration, so `N` frames have total nominal
playback duration `N · (1000 // F)` ms; no frame gets an individual
duration. -/
theorem encoder_uniform_duration_spec (output_frames : List Frame)
    (F : Int) (hF : 0 < F) (g : AnimFile)
    (h : saveFrames output_frames F = Except.ok g) :
    g.frameDurations.length = output_frames.length
    ∧ (∀ d ∈ g.frameDurations, d = 1000 / F)
    ∧ g.frameDurations.sum = (output_frames.length : Int) * (1000 / F)
    ∧ (1000 : Int) / F = ((1000 / F.toNat : Nat) : Int) := by
  have hFnat : ((F.toNat : Nat) : Int) = F := Int.toNat_of_nonneg hF.le
  cases output_frames with
  | nil => simp [saveFrames] at h
  | cons f rest =>
    have h2 : (Except.ok (⟨f :: rest,
        List.replicate (f :: rest).length ((1000 : Int) / F), 0⟩ : AnimFile)
        : Except ExportError AnimFile) = Except.ok g := h
    injection h2 with h3
    subst h3
    refine ⟨List.length_replicate _ _, fun d hd =>
      List.eq_of_mem_replicate hd, ?_, ?_⟩
    · rw [List.sum_replicate, nsmul_eq_mul]
    · rw [Int.natCast_div, hFnat]
      norm_num

/-- Closed witness for `encoder_uniform_duration_spec`: one frame at
30 fps gets duration `⌊1000/30⌋ = 33`. -/
theorem encoder_uniform_duration_spec_witness :
    (0 : Int) < 30
    ∧ saveFrames [[[⟨1, 1, 1⟩]]] 30
        = Except.ok (⟨[[[⟨1, 1, 1⟩]]], [33], 0⟩ : AnimFile)
    ∧ ((⟨[[[⟨1, 1, 1⟩]]], [33], 0⟩ : AnimFile).frameDurations.length
        = ([[[⟨1, 1, 1⟩]]] : List Frame).length
      ∧ (∀ d ∈ (⟨[[[⟨1, 1, 1⟩]]], [33], 0⟩ : AnimFile).frameDurations,
          d = 1000 / 30)
      ∧ (⟨[[[⟨1, 1, 1⟩]]], [33], 0⟩ : AnimFile).frameDurations.sum
          = ((([[[⟨1, 1, 1⟩]]] : List Frame).length : Nat) : Int)
            * (1000 / 30)
      ∧ (1000 : Int) / 30 = ((1000 / (30 : Int).toNat : Nat) : Int)) :=
  ⟨by decide, by rfl,
    encoder_uniform_duration_spec [[[⟨1, 1, 1⟩]]] 30 (by decide)
      ⟨[[[⟨1, 1, 1⟩]]], [33], 0⟩ (by rfl)⟩

/-- Claim C8: saving a zero-length frame sequence fails (the
`output_frames[0]` indexing raises before `save` can create any file, so
no output file — in particular no zero-byte file — is produced), and for
every non-empty sequence the save step proceeds to a written file. -/
theorem encode_empty_sequence_spec (F : Int) (output_frames : List Frame)
    (hne : output_frames ≠ []) :
    saveFrames [] F = Except.error ExportError.emptySequence
    ∧ ∃ g : AnimFile, saveFrames output_frames F = Except.ok g := by
  constructor
  · rfl
  · cases output_frames with
    | nil => exact absurd rfl hne
    | cons f rest => exact ⟨_, rfl⟩

/-- Closed witness for `encode_empty_sequence_spec` with a one-frame
sequence at 10 fps. -/
theorem encode_empty_sequence_spec_witness :
    ([[[⟨2, 2, 2⟩]]] : List Frame) ≠ []
    ∧ (saveFrames [] 10 = Except.error ExportError.emptySequence
      ∧ ∃ g : AnimFile, saveFrames [[[⟨2, 2, 2⟩]]] 10 = Except.ok g) :=
  ⟨by decide, encode_empty_sequence_spec 10 [[[⟨2, 2, 2⟩]]] (by decide)⟩

theorem readBuf_concat (h : List Frame) (f : Frame) :
    readBuf (h ++ [f]) h.length = f := by
  unfold readBuf
  rw [List.get?_concat_length]
  rfl

theorem stepAlways_inv (st : Frame → Frame) (h0 : List Frame)
    (p : List Frame × Nat) (v : Frame) (hI : AllocInv h0 p v) :
    AllocInv h0 (stepAlways st p) (st v)
    ∧ h0.length ≤ (stepAlways st p).2 := by
  obtain ⟨⟨t, ht⟩, hlt, hval⟩ := hI
  refine ⟨⟨⟨t ++ [st v], ?_⟩, ?_, ?_⟩, ?_⟩
  · show p.1 ++ [st (readBuf p.1 p.2)] = h0 ++ (t ++ [st v])
    rw [hval, ht, List.append_assoc]
  · show p.1.length < (p.1 ++ [st (readBuf p.1 p.2)]).length
    rw [List.length_append, List.length_singleton]
    omega
  · show readBuf (p.1 ++ [st (readBuf p.1 p.2)]) p.1.length = st v
    rw [hval, readBuf_concat]
  · show h0.length ≤ p.1.length
    rw [ht, List.length_append]
    omega

theorem stepIf_inv (cond : Prop) [Decidable cond] (st : Frame → Frame)
    (h0 : List Frame) (p : List Frame × Nat) (v : Frame)
    (hI : AllocInv h0 p v) :
    AllocInv h0 (stepIf cond st p) (if cond then st v else v) := by
  unfold stepIf
  by_cases hc : cond
  · rw [if_pos hc, if_pos hc]
    exact (stepAlways_inv st h0 p v hI).1
  · rw [if_neg hc, if_neg hc]
    exact hI

/-- Claim C9: at the buffer level, `apply_filters` never writes to its input
buffer — after the call the input buffer holds its original contents — and
the returned buffer is a fresh allocation (a strictly later reference than
the input), holding exactly the pure `apply_filters` value of the input
frame. -/
theorem apply_filters_no_mutation (h0 : List Frame) (inRef : Nat)
    (hin : inRef < h0.length) (b c s : ℚ) (g sp : Bool) (rot : Nat)
    (fh fv : Bool) :
    (applyFiltersAlloc h0 inRef b c s g sp rot fh fv).1.get? inRef
        = h0.get? inRef
    ∧ inRef < (applyFiltersAlloc h0 inRef b c s g sp rot fh fv).2
    ∧ readBuf (applyFiltersAlloc h0 inRef b c s g sp rot fh fv).1
        (applyFiltersAlloc h0 inRef b c s g sp rot fh fv).2
      = apply_filters (readBuf h0 inRef) b c s g sp rot fh fv := by
  have I0 : AllocInv h0 (h0, inRef) (readBuf h0 inRef) :=
    ⟨⟨[], (List.append_nil h0).symm⟩, hin, rfl⟩
  have I1 := stepAlways_inv id h0 _ _ I0
  have I2 := stepIf_inv (rot ≠ 0) (rotateStage rot) h0 _ _ I1.1
  have I3 := stepIf_inv (fh = true) flipHFrame h0 _ _ I2
  have I4 := stepIf_inv (fv = true) flipVFrame h0 _ _ I3
  have I5 := stepIf_inv (b ≠ 1) (brightnessStage b) h0 _ _ I4
  have I6 := stepIf_inv (c ≠ 1) (contrastStage c) h0 _ _ I5
  have I7 := stepIf_inv (s ≠ 1) (saturationStage s) h0 _ _ I6
  have I8 := stepIf_inv (g = true) grayStage h0 _ _ I7
  have I9 := stepIf_inv (sp = true) sepiaStage h0 _ _ I8
  have I10 := stepAlways_inv id h0 _ _ I9
  obtain ⟨⟨⟨t, ht⟩, hlt, hval⟩, hfresh⟩ := I10
  unfold applyFiltersAlloc
  refine ⟨?_, ?_, ?_⟩
  · rw [ht]
    exact List.get?_append hin
  · exact lt_of_lt_of_le hin hfresh
  · exact hval

/-- Closed witness for `apply_filters_no_mutation` on a one-buffer heap
holding a 1×1 frame, all settings at identity. -/
theorem apply_filters_no_mutation_witness :
    (0 : Nat) < ([[[⟨1, 2, 3⟩]]] : List Frame).length
    ∧ ((applyFiltersAlloc [[[⟨1, 2, 3⟩]]] 0 1 1 1 false false 0 false
          false).1.get? 0 = ([[[⟨1, 2, 3⟩]]] : List Frame).get? 0
      ∧ 0 < (applyFiltersAlloc [[[⟨1, 2, 3⟩]]] 0 1 1 1 false false 0 false
          false).2
      ∧ readBuf (applyFiltersAlloc [[[⟨1, 2, 3⟩]]] 0 1 1 1 false false 0
            false false).1
          (applyFiltersAlloc [[[⟨1, 2, 3⟩]]] 0 1 1 1 false false 0 false
            false).2
        = apply_filters (readBuf [[[⟨1, 2, 3⟩]]] 0) 1 1 1 false false 0
            false false) :=
  ⟨by decide, apply_filters_no_mutation [[[⟨1, 2, 3⟩]]] 0 (by decide)
    1 1 1 false false 0 false false⟩

theorem log2fuel_spec : ∀ (fuel n : Nat), 1 ≤ n → n ≤ fuel →
    2 ^ (log2fuel fuel n) ≤ n ∧ n < 2 ^ (log2fuel fuel n + 1) := by
  intro fuel
  induction fuel with
  | zero => intro n h1 h2; omega
  | succ fuel ih =>
    intro n h1 h2
    by_cases hn : n < 2
    · have hone : n = 1 := by omega
      subst hone
      rw [show log2fuel (fuel + 1) 1 = 0 from by simp [log2fuel]]
      norm_num
    · have hrec : log2fuel (fuel + 1) n = log2fuel fuel (n / 2) + 1 := by
        simp [log2fuel, hn]
      have hd1 : 1 ≤ n / 2 := by omega
      have hd2 : n / 2 ≤ fuel := by omega
      obtain ⟨hlo, hhi⟩ := ih (n / 2) hd1 hd2
      rw [hrec]
      constructor
      · rw [pow_succ]
        omega
      · rw [pow_succ]
        omega

theorem log2floor_spec (n : Nat) (h1 : 1 ≤ n) :
    2 ^ log2floor n ≤ n ∧ n < 2 ^ (log2floor n + 1) :=
  log2fuel_spec n n h1 (le_refl n)

theorem clog2fuel_spec : ∀ (fuel c : Nat), 1 ≤ c → c ≤ fuel →
    c ≤ 2 ^ (clog2fuel fuel c)
    ∧ (clog2fuel fuel c = 0 ∨ 2 ^ (clog2fuel fuel c - 1) < c) := by
  intro fuel
  induction fuel with
  | zero => intro c h1 h2; omega
  | succ fuel ih =>
    intro c h1 h2
    by_cases hc : c ≤ 1
    · have hone : c = 1 := by omega
      subst hone
      rw [show clog2fuel (fuel + 1) 1 = 0 from by simp [clog2fuel]]
      norm_num
    · have hrec : clog2fuel (fuel + 1) c = clog2fuel fuel ((c + 1) / 2) + 1
          := by simp [clog2fuel, hc]
      have hd1 : 1 ≤ (c + 1) / 2 := by omega
      have hd2 : (c + 1) / 2 ≤ fuel := by omega
      obtain ⟨hlo, hmin⟩ := ih ((c + 1) / 2) hd1 hd2
      rw [hrec]
      constructor
      · rw [pow_succ]
        omega
      · right
        rw [Nat.add_sub_cancel]
        rcases Nat.eq_zero_or_pos (clog2fuel fuel ((c + 1) / 2)) with
          h0 | hpos
        · rw [h0, pow_zero]
          omega
        · rcases hmin with h0 | hlt
          · omega
          · have hpow : 2 ^ (clog2fuel fuel ((c + 1) / 2))
                = 2 * 2 ^ (clog2fuel fuel ((c + 1) / 2) - 1) := by
              conv_lhs => rw [show clog2fuel fuel ((c + 1) / 2)
                = (clog2fuel fuel ((c + 1) / 2) - 1) + 1 from by omega]
              rw [pow_succ]
              ring
            omega

theorem clog2ceil_spec (c : Nat) (h1 : 1 ≤ c) :
    c ≤ 2 ^ clog2ceil c
    ∧ (clog2ceil c = 0 ∨ 2 ^ (clog2ceil c - 1) < c) :=
  clog2fuel_spec c c h1 (le_refl c)

theorem ceil_div_le_iff (a b m : Nat) (ha : 0 < a) :
    (b + a - 1) / a ≤ m ↔ b ≤ a * m := by
  constructor
  · intro h
    have h2 : (b + a - 1) / a < m + 1 := by omega
    have h3 : b + a - 1 < (m + 1) * a := (Nat.div_lt_iff_lt_mul ha).mp h2
    have h4 : (m + 1) * a = m * a + a := by ring
    have h5 : m * a = a * m := Nat.mul_comm m a
    omega
  · intro h
    have h2 : (b + a - 1) / a ≤ (a * m + (a - 1)) / a :=
      Nat.div_le_div_right (by omega)
    rw [Nat.mul_add_div ha, Nat.div_eq_of_lt (by omega : a - 1 < a)] at h2
    omega

theorem floorLog2Ratio_spec (a b : Nat) (ha : 0 < a) (hb : 0 < b) :
    (2 : ℚ) ^ (floorLog2Ratio a b) ≤ (a : ℚ) / (b : ℚ)
    ∧ (a : ℚ) / (b : ℚ) < 2 ^ (floorLog2Ratio a b + 1) := by
  have hbq : (0 : ℚ) < (b : ℚ) := by exact_mod_cast hb
  unfold floorLog2Ratio
  by_cases hba : b ≤ a
  · rw [if_pos hba]
    have hm1 : 1 ≤ a / b := (Nat.one_le_div_iff hb).mpr hba
    obtain ⟨hlo, hhi⟩ := log2floor_spec (a / b) hm1
    have hq1 : ((a / b : Nat) : ℚ) ≤ (a : ℚ) / (b : ℚ) := by
      rw [le_div_iff hbq]
      exact_mod_cast Nat.div_mul_le_self a b
    have hq2 : (a : ℚ) / (b : ℚ) < ((a / b : Nat) : ℚ) + 1 := by
      rw [div_lt_iff hbq]
      have h3 : a < (a / b + 1) * b :=
        (Nat.div_lt_iff_lt_mul hb).mp (Nat.lt_succ_self _)
      exact_mod_cast h3
    constructor
    · rw [zpow_natCast]
      calc (2 : ℚ) ^ log2floor (a / b) ≤ ((a / b : Nat) : ℚ) := by
            exact_mod_cast hlo
        _ ≤ _ := hq1
    · rw [show ((log2floor (a / b) : Int) + 1)
          = ((log2floor (a / b) + 1 : Nat) : Int) by push_cast; ring,
        zpow_natCast]
      calc (a : ℚ) / b < ((a / b : Nat) : ℚ) + 1 := hq2
        _ ≤ (2 : ℚ) ^ (log2floor (a / b) + 1) := by exact_mod_cast hhi
  · rw [if_neg hba]
    have hab : a < b := by omega
    have hc1 : 1 ≤ (b + a - 1) / a := by
      by_contra hx
      have h0 : (b + a - 1) / a ≤ 0 := by omega
      have hb0 := (ceil_div_le_iff a b 0 ha).mp h0
      omega
    obtain ⟨hlo, hmin⟩ := clog2ceil_spec _ hc1
    set K := clog2ceil ((b + a - 1) / a) with hK
    have hble : b ≤ a * 2 ^ K := (ceil_div_le_iff a b (2 ^ K) ha).mp hlo
    have hK1 : 1 ≤ K := by
      by_contra hx
      have h0 : K = 0 := by omega
      rw [h0, pow_zero, Nat.mul_one] at hble
      omega
    have hblt : a * 2 ^ (K - 1) < b := by
      rcases hmin with h0 | hlt
      · omega
      · by_contra hx
        push_neg at hx
        have := (ceil_div_le_iff a b (2 ^ (K - 1)) ha).mpr hx
        omega
    have hz1 : (2 : ℚ) ^ (-(K : Int)) = 1 / (2 : ℚ) ^ K := by
      rw [zpow_neg, zpow_natCast, one_div]
    have hz2 : (2 : ℚ) ^ (-(K : Int) + 1) = 1 / (2 : ℚ) ^ (K - 1) := by
      rw [show -(K : Int) + 1 = -(((K - 1 : Nat)) : Int) by
        rw [Nat.cast_sub hK1]; push_cast; ring]
      rw [zpow_neg, zpow_natCast, one_div]
    constructor
    · rw [hz1, div_le_div_iff (by positivity) hbq, one_mul]
      exact_mod_cast hble
    · rw [hz2, div_lt_div_iff hbq (by positivity), one_mul]
      exact_mod_cast hblt

theorem floorLog2_unique {q : ℚ} {e f : Int}
    (he1 : (2 : ℚ) ^ e ≤ q) (he2 : q < 2 ^ (e + 1))
    (hf1 : (2 : ℚ) ^ f ≤ q) (hf2 : q < 2 ^ (f + 1)) : e = f := by
  by_contra hne
  rcases lt_or_gt_of_ne hne with h | h
  · have h2 : (2 : ℚ) ^ (e + 1) ≤ 2 ^ f :=
      zpow_le_zpow_right₀ (by norm_num) (by omega)
    linarith
  · have h2 : (2 : ℚ) ^ (f + 1) ≤ 2 ^ e :=
      zpow_le_zpow_right₀ (by norm_num) (by omega)
    linarith

theorem floorLog2Ratio_double_den (a b : Nat) (ha : 0 < a) (hb : 0 < b) :
    floorLog2Ratio a (2 * b) = floorLog2Ratio a b - 1 := by
  obtain ⟨h1, h2⟩ := floorLog2Ratio_spec a b ha hb
  obtain ⟨h3, h4⟩ := floorLog2Ratio_spec a (2 * b) ha (by omega)
  have hval : (a : ℚ) / ((2 * b : Nat) : ℚ) = ((a : ℚ) / b) / 2 := by
    push_cast
    rw [div_div, mul_comm (b : ℚ) 2]
  rw [hval] at h3 h4
  have h5 : (2 : ℚ) ^ (floorLog2Ratio a b - 1) ≤ ((a : ℚ) / b) / 2 := by
    rw [le_div_iff (by norm_num : (0 : ℚ) < 2)]
    calc (2 : ℚ) ^ (floorLog2Ratio a b - 1) * 2
        = 2 ^ floorLog2Ratio a b := by
          rw [show floorLog2Ratio a b = (floorLog2Ratio a b - 1) + 1 by ring,
            zpow_add_one₀ (by norm_num : (2 : ℚ) ≠ 0)]
          ring
      _ ≤ _ := h1
  have h6 : ((a : ℚ) / b) / 2 < 2 ^ ((floorLog2Ratio a b - 1) + 1) := by
    rw [div_lt_iff (by norm_num : (0 : ℚ) < 2)]
    calc (a : ℚ) / b < 2 ^ (floorLog2Ratio a b + 1) := h2
      _ = 2 ^ ((floorLog2Ratio a b - 1) + 1) * 2 := by
          rw [show floorLog2Ratio a b + 1 = ((floorLog2Ratio a b - 1) + 1) + 1
            by ring, zpow_add_one₀ (by norm_num : (2 : ℚ) ≠ 0)]
  exact floorLog2_unique h3 h4 h5 h6

theorem floorLog2Ratio_double_both (a b : Nat) (ha : 0 < a) (hb : 0 < b) :
    floorLog2Ratio (2 * a) (2 * b) = floorLog2Ratio a b := by
  obtain ⟨h1, h2⟩ := floorLog2Ratio_spec a b ha hb
  obtain ⟨h3, h4⟩ := floorLog2Ratio_spec (2 * a) (2 * b) (by omega) (by omega)
  have hval : ((2 * a : Nat) : ℚ) / ((2 * b : Nat) : ℚ) = (a : ℚ) / b := by
    push_cast
    rw [mul_div_mul_left _ _ (by norm_num : (2 : ℚ) ≠ 0)]
  rw [hval] at h3 h4
  exact floorLog2_unique h3 h4 h1 h2

theorem rneNat_two_mul (n d : Nat) : rneNat (2 * n) (2 * d) = rneNat n d := by
  unfold rneNat
  rw [Nat.mul_div_mul_left n d (by norm_num : 0 < 2),
    Nat.mul_mod_mul_left]
  have h1 : (2 * d < 2 * (2 * (n % d))) ↔ (d < 2 * (n % d)) := by omega
  have h2 : (2 * (2 * (n % d)) < 2 * d) ↔ (2 * (n % d) < d) := by omega
  by_cases hc1 : d < 2 * (n % d)
  · rw [if_pos (h1.mpr hc1), if_pos hc1]
  · rw [if_neg (fun hx => hc1 (h1.mp hx)), if_neg hc1]
    by_cases hc2 : 2 * (n % d) < d
    · rw [if_pos (h2.mpr hc2), if_pos hc2]
    · rw [if_neg (fun hx => hc2 (h2.mp hx)), if_neg hc2]

theorem mant53_double_den (a b : Nat) (ha : 0 < a) (hb : 0 < b) :
    mant53 a (2 * b) = mant53 a b := by
  unfold mant53
  rw [floorLog2Ratio_double_den a b ha hb]
  by_cases hg : floorLog2Ratio a b - 52 ≤ 0
  · rw [if_pos (by omega : floorLog2Ratio a b - 1 - 52 ≤ 0), if_pos hg]
    have ht : (-(floorLog2Ratio a b - 1 - 52)).toNat
        = (-(floorLog2Ratio a b - 52)).toNat + 1 := by omega
    rw [ht, pow_succ]
    have harg : a * (2 ^ (-(floorLog2Ratio a b - 52)).toNat * 2)
        = 2 * (a * 2 ^ (-(floorLog2Ratio a b - 52)).toNat) := by ring
    rw [harg, rneNat_two_mul]
  · by_cases hg1 : floorLog2Ratio a b - 52 = 1
    · rw [if_pos (by omega : floorLog2Ratio a b - 1 - 52 ≤ 0), if_neg hg]
      have ht : (-(floorLog2Ratio a b - 1 - 52)).toNat = 0 := by omega
      rw [ht, pow_zero, Nat.mul_one, hg1]
      rw [show ((1 : Int)).toNat = 1 from rfl, pow_one, Nat.mul_comm b 2]
    · rw [if_neg (by omega : ¬(floorLog2Ratio a b - 1 - 52 ≤ 0)), if_neg hg]
      have ht : (floorLog2Ratio a b - 52).toNat
          = (floorLog2Ratio a b - 1 - 52).toNat + 1 := by omega
      rw [ht, pow_succ]
      have harg : b * (2 ^ (floorLog2Ratio a b - 1 - 52).toNat * 2)
          = 2 * b * 2 ^ (floorLog2Ratio a b - 1 - 52).toNat := by ring
      rw [harg]

theorem mant53_double_both (a b : Nat) (ha : 0 < a) (hb : 0 < b) :
    mant53 (2 * a) (2 * b) = mant53 a b := by
  unfold mant53
  rw [floorLog2Ratio_double_both a b ha hb]
  by_cases hg : floorLog2Ratio a b - 52 ≤ 0
  · rw [if_pos hg, if_pos hg]
    have harg : 2 * a * 2 ^ (-(floorLog2Ratio a b - 52)).toNat
        = 2 * (a * 2 ^ (-(floorLog2Ratio a b - 52)).toNat) := by ring
    rw [harg, rneNat_two_mul]
  · rw [if_neg hg, if_neg hg]
    have harg : 2 * b * 2 ^ (floorLog2Ratio a b - 52).toNat
        = 2 * (b * 2 ^ (floorLog2Ratio a b - 52).toNat) := by ring
    rw [harg, rneNat_two_mul]

theorem flPair_double_both (a b : Nat) (hb : 0 < b) :
    flPair (2 * a) (2 * b) = flPair a b := by
  by_cases ha : a = 0
  · subst ha
    rfl
  · rw [flPair, flPair, if_neg (by omega : ¬ 2 * a = 0), if_neg ha,
      mant53_double_both a b (by omega) hb,
      floorLog2Ratio_double_both a b (by omega) hb]

theorem fmulInt_double (x m : Nat) (g : Int) :
    fmulInt (2 * x) (m, g - 1) = fmulInt x (m, g) := by
  simp only [fmulInt]
  by_cases hg : (0 : Int) ≤ g - 1
  · rw [if_pos hg, if_pos (by omega : (0 : Int) ≤ g)]
    have ht : g.toNat = (g - 1).toNat + 1 := by omega
    rw [ht, pow_succ]
    have harg : x * m * (2 ^ (g - 1).toNat * 2)
        = 2 * x * m * 2 ^ (g - 1).toNat := by ring
    rw [harg]
  · by_cases hg0 : (0 : Int) ≤ g
    · have hgz : g = 0 := by omega
      subst hgz
      rw [if_neg hg, if_pos hg0]
      rw [show ((-(0 - 1 : Int)).toNat) = 1 from rfl, pow_one]
      rw [show (((0 : Int)).toNat) = 0 from rfl, pow_zero, Nat.mul_one]
      rw [show (2 * x * m) = 2 * (x * m) from by ring,
        show (2 : Nat) = 2 * 1 from rfl]
      exact flPair_double_both (x * m) 1 Nat.one_pos
    · rw [if_neg hg, if_neg hg0]
      have ht : (-(g - 1)).toNat = (-g).toNat + 1 := by omega
      rw [ht, pow_succ]
      rw [show (2 * x * m) = 2 * (x * m) from by ring,
        show (2 ^ (-g).toNat * 2) = 2 * 2 ^ (-g).toNat from by ring]
      exact flPair_double_both (x * m) (2 ^ (-g).toNat) (by positivity)

theorem pyScaleInt_covariant (x w cw : Nat) (hw : 0 < w) (hcw : 0 < cw) :
    pyScaleInt (2 * x) w (2 * cw) = pyScaleInt x w cw := by
  unfold pyScaleInt
  have hfl1 : flPair w (2 * cw)
      = (mant53 w cw, (floorLog2Ratio w cw - 52) - 1) := by
    rw [flPair, if_neg (by omega : ¬ w = 0),
      mant53_double_den w cw hw hcw, floorLog2Ratio_double_den w cw hw hcw]
    congr 1
    ring
  have hfl2 : flPair w cw = (mant53 w cw, floorLog2Ratio w cw - 52) := by
    rw [flPair, if_neg (by omega : ¬ w = 0)]
  rw [hfl1, hfl2, fmulInt_double x (mant53 w cw) (floorLog2Ratio w cw - 52)]

/-- Claim C7, counterexample: the claim says the applied crop box is
`(⌊x1·W/cw⌋, …)`.  For a 720×480 source frame and the 700×400 canvas, the
crop selection `(105, 0, 200, 100)` is remapped by the code to `107` in
its first coordinate (`int(105 * (720/700))` in binary64), while
`⌊105·720/700⌋ = 108`: the double `720/700` rounds below `36/35`, the
product falls just below `108.0`, and `int` truncates to `107`. -/
theorem crop_box_floor_counterexample :
    crop_box 105 0 200 100 720 480 700 400 = (107, 0, 205, 120)
    ∧ (105 * 720) / 700 = 108
    ∧ (107 : Nat) ≠ 108 := by
  refine ⟨by decide, by decide, by decide⟩

/-- Claim C7, amended: the crop box applied for a frame of width `W`,
height `H` and canvas `(cw, ch)` is
`(int(x1·(W/cw)), int(y1·(H/ch)), int(x2·(W/cw)), int(y2·(H/ch)))`
computed in IEEE-754 doubles — one unit below `⌊xi·W/cw⌋` in rare cases —
and this remap is still exactly scale-covariant: doubling the canvas
width while doubling both crop x-coordinates yields the identical
source-space crop box. -/
theorem crop_box_covariant (x1 y1 x2 y2 w h cw ch : Nat)
    (hw : 0 < w) (hcw : 0 < cw) :
    crop_box (2 * x1) y1 (2 * x2) y2 w h (2 * cw) ch
      = crop_box x1 y1 x2 y2 w h cw ch := by
  unfold crop_box
  rw [pyScaleInt_covariant x1 w cw hw hcw,
    pyScaleInt_covariant x2 w cw hw hcw]

/-- Closed witness for `crop_box_covariant`: doubling the 700-wide canvas
to 1400 and the crop x-coordinates `105, 200` to `210, 400` gives the same
box on a 720×480 frame. -/
theorem crop_box_covariant_witness :
    (0 : Nat) < 720 ∧ (0 : Nat) < 700
    ∧ crop_box (2 * 105) 0 (2 * 200) 100 720 480 (2 * 700) 400
      = crop_box 105 0 200 100 720 480 700 400 :=
  ⟨by decide, by decide,
    crop_box_covariant 105 0 200 100 720 480 700 400 (by decide) (by decide)⟩

end GifMaker
